import Mathlib

/-!
Shallow embedding of the jsfw entity/component registry
(entity-system.js) and proofs about its operations.

Modelling conventions:

* JavaScript objects used as dictionaries become association lists with
  first-match lookup (alGet), in-place update-or-append (alSet) and key
  deletion (alErase); a missing property reads as the undefined value.
* Component values are a JS-value type with the truthiness the source
  applies in its `if (x)` tests.
* The inner per-entity component maps are mutable objects shared by
  reference in the source (removeEntity aliases the active map into the
  removed map), so they live in an explicit heap (cmHeap) addressed by
  Nat; the two registry maps store addresses into that heap.
* The identity carrier (entity.js, not among the sources) is modelled
  from the spec: a stable id plus an allocation token standing for JS
  object identity, which is what hasEntity's reference comparison
  observes.  The carrier's dynamic component fields set by setComponent
  are write-only conveniences with no effect on registry state and are
  not modelled.
* The entity-set collaborator (entity-set.js, not among the sources) is
  modelled from the spec: a membership list maintained incrementally by
  add and remove, plus added/changed/removed transition buckets that
  record the notifications of the current tick; flush commits the tick
  by clearing the buckets.  remove records its argument in the removed
  bucket and filters the membership list, so removing a non-member
  leaves membership unchanged.
-/

namespace Jsfw

/-- JavaScript values as far as the registry observes them: the registry
only inspects values through truthiness tests and returns them
verbatim. -/
inductive Value where
  | vundef : Value
  | vnull : Value
  | vbool : Bool → Value
  | vnum : Int → Value
  | vstr : String → Value
  | vobj : Nat → Value
deriving DecidableEq

/-- JS truthiness for the values above. -/
def Value.truthy : Value → Bool
  | .vundef => false
  | .vnull => false
  | .vbool b => b
  | .vnum n => decide (n ≠ 0)
  | .vstr s => decide (s ≠ "")
  | .vobj _ => true

/-- First-match lookup in an association list (JS property read; a miss
is the undefined read, rendered as none). -/
def alGet {κ α : Type} [DecidableEq κ] : List (κ × α) → κ → Option α
  | [], _ => none
  | (k0, v0) :: rest, k => if k0 = k then some v0 else alGet rest k

/-- Update-or-append (JS property write). -/
def alSet {κ α : Type} [DecidableEq κ] : List (κ × α) → κ → α → List (κ × α)
  | [], k, v => [(k, v)]
  | (k0, v0) :: rest, k, v =>
      if k0 = k then (k0, v) :: rest else (k0, v0) :: alSet rest k v

/-- Key deletion (JS delete). -/
def alErase {κ α : Type} [DecidableEq κ] (m : List (κ × α)) (k : κ) : List (κ × α) :=
  m.filter (fun p => decide (p.1 ≠ k))

theorem alGet_alSet {κ α : Type} [DecidableEq κ] (m : List (κ × α)) (k k' : κ) (v : α) :
    alGet (alSet m k v) k' = if k = k' then some v else alGet m k' := by
  induction m with
  | nil => simp only [alSet, alGet]
  | cons p rest ih =>
      obtain ⟨k0, v0⟩ := p
      by_cases h0 : k0 = k
      · subst h0
        by_cases h : k0 = k'
        · subst h
          simp [alSet, alGet]
        · simp [alSet, alGet, h]
      · by_cases h : k0 = k'
        · subst h
          have hne : ¬k = k0 := fun hh => h0 hh.symm
          simp [alSet, alGet, h0, hne]
        · simp [alSet, alGet, h0, h, ih]

theorem alErase_cons {κ α : Type} [DecidableEq κ] (k0 : κ) (v0 : α)
    (rest : List (κ × α)) (k : κ) :
    alErase ((k0, v0) :: rest) k =
      if k0 = k then alErase rest k else (k0, v0) :: alErase rest k := by
  by_cases h : k0 = k <;> simp [alErase, List.filter_cons, h]

theorem alGet_alErase {κ α : Type} [DecidableEq κ] (m : List (κ × α)) (k k' : κ) :
    alGet (alErase m k) k' = if k = k' then none else alGet m k' := by
  induction m with
  | nil => simp [alErase, alGet]
  | cons p rest ih =>
      obtain ⟨k0, v0⟩ := p
      rw [alErase_cons]
      by_cases h0 : k0 = k
      · subst h0
        rw [if_pos rfl, ih]
        by_cases h : k0 = k'
        · subst h
          simp
        · simp [alGet, h]
      · rw [if_neg h0]
        by_cases h : k0 = k'
        · subst h
          have hne : ¬k = k0 := fun hh => h0 hh.symm
          simp [alGet, hne]
        · simp [alGet, h, ih]

theorem mem_alSet {κ α : Type} [DecidableEq κ] {m : List (κ × α)} {k : κ} {v : α}
    {p : κ × α} (hp : p ∈ alSet m k v) : p = (k, v) ∨ p ∈ m := by
  induction m with
  | nil => simpa [alSet] using hp
  | cons q rest ih =>
      obtain ⟨k0, v0⟩ := q
      by_cases h0 : k0 = k
      · subst h0
        rw [alSet, if_pos rfl] at hp
        rcases List.mem_cons.1 hp with h | h
        · exact Or.inl (by simpa using h)
        · exact Or.inr (List.mem_cons_of_mem _ h)
      · rw [alSet, if_neg h0] at hp
        rcases List.mem_cons.1 hp with h | h
        · exact Or.inr (List.mem_cons.2 (Or.inl h))
        · rcases ih h with h1 | h1
          · exact Or.inl h1
          · exact Or.inr (List.mem_cons_of_mem _ h1)

theorem alGet_mem {κ α : Type} [DecidableEq κ] {m : List (κ × α)} {k : κ} {v : α}
    (h : alGet m k = some v) : (k, v) ∈ m := by
  induction m with
  | nil => simp [alGet] at h
  | cons q rest ih =>
      obtain ⟨k0, v0⟩ := q
      by_cases h0 : k0 = k
      · subst h0
        rw [alGet, if_pos rfl] at h
        obtain rfl := Option.some.inj h
        exact List.mem_cons_self _ _
      · rw [alGet, if_neg h0] at h
        exact List.mem_cons_of_mem _ (ih h)

theorem alGet_mapValues {κ α β : Type} [DecidableEq κ] (m : List (κ × α)) (k : κ)
    (f : α → β) :
    alGet (m.map (fun p => (p.1, f p.2))) k = (alGet m k).map f := by
  induction m with
  | nil => simp [alGet]
  | cons q rest ih =>
      obtain ⟨k0, v0⟩ := q
      by_cases h0 : k0 = k <;> simp [alGet, h0, ih]

/-- The inner name-to-value dictionary object of one entity. -/
abbrev ComponentMap := List (String × Value)

/-- JS property read on a component map: a miss reads as undefined. -/
def vget (m : ComponentMap) (k : String) : Value := (alGet m k).getD .vundef

theorem vget_alSet (m : ComponentMap) (k k' : String) (v : Value) :
    vget (alSet m k v) k' = if k = k' then v else vget m k' := by
  by_cases h : k = k' <;> simp [vget, alGet_alSet, h]

theorem vget_alErase (m : ComponentMap) (k k' : String) :
    vget (alErase m k) k' = if k = k' then .vundef else vget m k' := by
  by_cases h : k = k' <;> simp [vget, alGet_alErase, h]

/-- Modelled from the spec: the identity carrier (entity.js is not among
the sources).  id is the constructor argument stored by new Entity(id);
oref is an allocation token standing for JS object identity, so
structural equality of this type models the reference equality the
source tests with ===. -/
structure Entity where
  id : Nat
  oref : Nat
deriving DecidableEq

/-- Modelled from the spec: the entity-set collaborator (entity-set.js
is not among the sources).  entities is the membership view; the three
buckets are the pending transitions of the current tick. -/
structure EntitySet where
  entities : List Entity
  addedEntities : List Entity
  changedEntities : List Entity
  removedEntities : List Entity
deriving DecidableEq

/-- Modelled from the spec: new EntitySet() starts empty. -/
def EntitySet.empty : EntitySet := ⟨[], [], [], []⟩

/-- Modelled from the spec: add stages an add transition and makes the
entity a member. -/
def EntitySet.add (es : EntitySet) (e : Entity) : EntitySet :=
  { es with entities := es.entities ++ [e],
            addedEntities := es.addedEntities ++ [e] }

/-- Modelled from the spec: change stages a change transition. -/
def EntitySet.change (es : EntitySet) (e : Entity) : EntitySet :=
  { es with changedEntities := es.changedEntities ++ [e] }

/-- Modelled from the spec: remove stages a remove transition for its
argument and drops the argument from membership; removing a non-member
leaves membership unchanged. -/
def EntitySet.remove (es : EntitySet) (e : Entity) : EntitySet :=
  { es with entities := es.entities.filter (fun x => decide (x ≠ e)),
            removedEntities := es.removedEntities ++ [e] }

/-- Modelled from the spec: flush commits the tick by clearing the
pending transition buckets. -/
def EntitySet.flush (es : EntitySet) : EntitySet :=
  { es with addedEntities := [], changedEntities := [], removedEntities := [] }

/-- Membership in the set's current view. -/
def EntitySet.contains (es : EntitySet) (e : Entity) : Bool := decide (e ∈ es.entities)

/-- State of one EntitySystem instance (entity-system.js).  cmHeap and
nextAddr are the explicit heap of component-map objects; entities,
entityComponentMap, removedEntityComponentMap, entitySets, counter and
isLazySets are the source's fields, with the two component registries
storing heap addresses so that the source's reference aliasing is
preserved. -/
structure EntitySystem where
  isLazySets : Bool
  counter : Nat
  entities : List (Nat × Entity)
  entityComponentMap : List (Nat × Nat)
  removedEntityComponentMap : List (Nat × Nat)
  entitySets : List (String × EntitySet)
  cmHeap : List (Nat × ComponentMap)
  nextAddr : Nat
deriving DecidableEq

/-- Dereference a component-map address in the heap. -/
def derefCM (s : EntitySystem) (a : Nat) : ComponentMap := (alGet s.cmHeap a).getD []

/-- Constructor state of EntitySystem(). -/
def EntitySystem.init : EntitySystem :=
  { isLazySets := false, counter := 0, entities := [], entityComponentMap := [],
    removedEntityComponentMap := [], entitySets := [], cmHeap := [], nextAddr := 0 }

/-- createEntity: generateUUID returns the counter and bumps it; the new
carrier is registered and given a fresh empty component map.  The
documented id parameter is accepted and, as in the source, never read. -/
def createEntity (s : EntitySystem) (_idArg : Option Nat) : Entity × EntitySystem :=
  let current := s.counter
  let entity : Entity := ⟨current, s.nextAddr⟩
  let a := s.nextAddr + 1
  ( entity,
    { s with counter := current + 1,
             nextAddr := s.nextAddr + 2,
             entities := alSet s.entities entity.id entity,
             cmHeap := alSet s.cmHeap a [],
             entityComponentMap := alSet s.entityComponentMap entity.id a } )

/-- hasEntity: lookup by id, then the reference comparison ent === entity. -/
def hasEntity (s : EntitySystem) (entity : Entity) : Bool :=
  match alGet s.entities entity.id with
  | none => false
  | some ent => decide (ent = entity)

/-- getEntityByID. -/
def getEntityByID (s : EntitySystem) (id : Nat) : Option Entity :=
  alGet s.entities id

/-- removeEntity: if the id is stored, alias the active component map
into the removed registry, notify every existing set with the argument
handle, and delete the id from the active table.  The active
component-map entry itself is not deleted.  When the active registry has
no entry the source stores undefined, which every reader treats as
absent; that write is rendered as key deletion. -/
def removeEntity (s : EntitySystem) (entity : Entity) : EntitySystem :=
  match alGet s.entities entity.id with
  | none => s
  | some _ =>
      let removed :=
        match alGet s.entityComponentMap entity.id with
        | some a => alSet s.removedEntityComponentMap entity.id a
        | none => alErase s.removedEntityComponentMap entity.id
      { s with removedEntityComponentMap := removed,
               entitySets := s.entitySets.map (fun p => (p.1, p.2.remove entity)),
               entities := alErase s.entities entity.id }

/-- getComponent: return the active value when the active map holds a
truthy value under the name, otherwise fall back to the removed
registry, otherwise null. -/
def getComponent (s : EntitySystem) (entity : Entity) (componentName : String) : Value :=
  let active :=
    match alGet s.entityComponentMap entity.id with
    | some a =>
        let v := vget (derefCM s a) componentName
        if v.truthy then some v else none
    | none => none
  match active with
  | some v => v
  | none =>
      match alGet s.removedEntityComponentMap entity.id with
      | some a =>
          let v := vget (derefCM s a) componentName
          if v.truthy then v else Value.vnull
      | none => Value.vnull

/-- setComponent: guarded by presence in the active-entities table.  The
source then dereferences the entity's active component map; when that
entry is missing the source would fault on a property write, a branch
unreachable from the constructor state (see the invariant that active
ids always have component-map entries), rendered here as the identity.
In lazy mode with no set for the name the value is committed with no set
creation; otherwise the set is fetched or eagerly created, notified with
change when the prior value under the name is truthy and with add
otherwise, and the value is committed. -/
def setComponent (s : EntitySystem) (entity : Entity) (componentName : String)
    (component : Value) : EntitySystem :=
  match alGet s.entities entity.id with
  | none => s
  | some _ =>
      match alGet s.entityComponentMap entity.id with
      | none => s
      | some a =>
          let components := derefCM s a
          match alGet s.entitySets componentName with
          | none =>
              if s.isLazySets then
                { s with cmHeap := alSet s.cmHeap a (alSet components componentName component) }
              else
                let entitySet :=
                  if (vget components componentName).truthy then
                    EntitySet.empty.change entity
                  else
                    EntitySet.empty.add entity
                { s with entitySets := alSet s.entitySets componentName entitySet,
                         cmHeap := alSet s.cmHeap a (alSet components componentName component) }
          | some entitySet =>
              let entitySet :=
                if (vget components componentName).truthy then
                  entitySet.change entity
                else
                  entitySet.add entity
              { s with entitySets := alSet s.entitySets componentName entitySet,
                       cmHeap := alSet s.cmHeap a (alSet components componentName component) }

/-- hasComponent: false with no active component-map entry, otherwise
the truthiness of the stored value. -/
def hasComponent (s : EntitySystem) (entity : Entity) (componentName : String) : Bool :=
  match alGet s.entityComponentMap entity.id with
  | none => false
  | some a => (vget (derefCM s a) componentName).truthy

/-- removeComponent: guarded by the active component-map entry.  The
removed-registry entry for the id is created when absent, the current
value is staged into it, the name is deleted from the active map (both
writes go through the heap, so an aliased entry observes both), and a
set for the name, when present, is notified with remove. -/
def removeComponent (s : EntitySystem) (entity : Entity) (componentName : String) :
    EntitySystem :=
  match alGet s.entityComponentMap entity.id with
  | none => s
  | some a =>
      let components := derefCM s a
      let ensured :=
        match alGet s.removedEntityComponentMap entity.id with
        | some ra => (s, ra)
        | none =>
            let ra := s.nextAddr
            ({ s with cmHeap := alSet s.cmHeap ra [],
                      nextAddr := s.nextAddr + 1,
                      removedEntityComponentMap := alSet s.removedEntityComponentMap entity.id ra },
             ra)
      let s1 := ensured.1
      let ra := ensured.2
      let rcell := alSet (derefCM s1 ra) componentName (vget components componentName)
      let s2 := { s1 with cmHeap := alSet s1.cmHeap ra rcell }
      let acell := alErase (derefCM s2 a) componentName
      let s3 := { s2 with cmHeap := alSet s2.cmHeap a acell }
      match alGet s3.entitySets componentName with
      | some es =>
          { s3 with entitySets := alSet s3.entitySets componentName (es.remove entity) }
      | none => s3

/-- getEntities: return the stored set, or create one and back-fill it
with every active entity that currently has the component. -/
def getEntities (s : EntitySystem) (componentName : String) : EntitySet × EntitySystem :=
  match alGet s.entitySets componentName with
  | some es => (es, s)
  | none =>
      let entitySet :=
        (s.entities.map Prod.snd).foldl
          (fun es ent => if hasComponent s ent componentName then es.add ent else es)
          EntitySet.empty
      (entitySet, { s with entitySets := alSet s.entitySets componentName entitySet })

/-- flushChanges: flush every set and wholesale-clear the removed
component registry. -/
def flushChanges (s : EntitySystem) : EntitySystem :=
  { s with entitySets := s.entitySets.map (fun p => (p.1, p.2.flush)),
           removedEntityComponentMap := [] }

/-- removeAllEntities: remove every currently active entity through
removeEntity.  The iteration only ever deletes the key it is visiting,
so it is a fold over a snapshot of the table. -/
def removeAllEntities (s : EntitySystem) : EntitySystem :=
  (s.entities.map Prod.snd).foldl (fun acc ent => removeEntity acc ent) s

/-- The carrier produced by the first createEntity call on a fresh
system: id 0, first allocation token. -/
def entA : Entity := ⟨0, 0⟩

/-- A fresh system after one createEntity call. -/
def sysA : EntitySystem := (createEntity EntitySystem.init none).2

/-- A fresh lazy-mode system after one createEntity call. -/
def sysL : EntitySystem := (createEntity { EntitySystem.init with isLazySets := true } none).2

/-- sysA after attaching component P, removing the whole entity, and
flushing: the staged removed values are discarded but the active
component-map entry of the removed id survives. -/
def sysAfterEntityRemovalFlush : EntitySystem :=
  flushChanges (removeEntity (setComponent sysA entA "P" (.vobj 0)) entA)

/-- C1: the claim states that a component removed via removeEntity is,
like one removed via removeComponent, unreadable after the next
flushChanges.  False: removeEntity leaves the active component-map
entry in place, so after removeEntity plus flushChanges the value is
still served from the active map. -/
theorem removeEntity_value_survives_flush :
    getComponent sysAfterEntityRemovalFlush entA "P" = Value.vobj 0 ∧
      Value.vobj 0 ≠ Value.vnull := by
  constructor
  · decide
  · decide

/-- C1 (amended): a component removed via removeComponent is unreadable
after the next flushChanges — the staged copy is cleared and the active
map no longer holds the name — while a component removed via
removeEntity stays readable past the flush. -/
theorem removeComponent_not_readable_past_flush :
    ∀ (s : EntitySystem) (e : Entity) (n : String),
      getComponent (flushChanges (removeComponent s e n)) e n = Value.vnull := by
  intro s e n
  cases hm : alGet s.entityComponentMap e.id with
  | none =>
      simp [removeComponent, hm, flushChanges, getComponent]
      rfl
  | some a =>
      cases hr : alGet s.removedEntityComponentMap e.id with
      | none =>
          simp only [removeComponent, hm, hr]
          split <;>
            simp [flushChanges, getComponent, derefCM, alGet, alGet_alSet,
              alGet_alErase, vget, hm, Value.truthy]
      | some ra =>
          simp only [removeComponent, hm, hr]
          split <;>
            simp [flushChanges, getComponent, derefCM, alGet, alGet_alSet,
              alGet_alErase, vget, hm, Value.truthy]

theorem setComponent_entities_eq (s : EntitySystem) (e : Entity) (n : String) (v : Value) :
    (setComponent s e n v).entities = s.entities := by
  unfold setComponent
  (repeat' split) <;> rfl

theorem setComponent_ecm_eq (s : EntitySystem) (e : Entity) (n : String) (v : Value) :
    (setComponent s e n v).entityComponentMap = s.entityComponentMap := by
  unfold setComponent
  (repeat' split) <;> rfl

theorem removeComponent_entities_eq (s : EntitySystem) (e : Entity) (n : String) :
    (removeComponent s e n).entities = s.entities := by
  unfold removeComponent
  (repeat' split) <;> dsimp only <;> (repeat' split) <;> rfl

theorem removeComponent_ecm_eq (s : EntitySystem) (e : Entity) (n : String) :
    (removeComponent s e n).entityComponentMap = s.entityComponentMap := by
  unfold removeComponent
  (repeat' split) <;> dsimp only <;> (repeat' split) <;> rfl

theorem getEntities_entities_eq (s : EntitySystem) (n : String) :
    (getEntities s n).2.entities = s.entities := by
  unfold getEntities
  (repeat' split) <;> rfl

theorem getEntities_ecm_eq (s : EntitySystem) (n : String) :
    (getEntities s n).2.entityComponentMap = s.entityComponentMap := by
  unfold getEntities
  (repeat' split) <;> rfl

theorem removeEntity_ecm_eq (s : EntitySystem) (e : Entity) :
    (removeEntity s e).entityComponentMap = s.entityComponentMap := by
  unfold removeEntity
  (repeat' split) <;> rfl

/-- The invariant stated by the spec for the active component registry:
every id holding an entry is the id of an active entity. -/
def componentMapIdsActive (s : EntitySystem) : Prop :=
  ∀ p ∈ s.entityComponentMap, (alGet s.entities p.1).isSome = true

instance (s : EntitySystem) : Decidable (componentMapIdsActive s) :=
  inferInstanceAs (Decidable (∀ p ∈ s.entityComponentMap, (alGet s.entities p.1).isSome = true))

theorem componentMapIdsActive_congr {s s' : EntitySystem}
    (h1 : s'.entityComponentMap = s.entityComponentMap) (h2 : s'.entities = s.entities)
    (h : componentMapIdsActive s) : componentMapIdsActive s' := by
  intro p hp
  rw [h1] at hp
  rw [h2]
  exact h p hp

/-- C2: in the reachable state after createEntity plus removeEntity the
removed id still has an active component-map entry while it is gone
from the active-entities table, so the invariant is not preserved by
removeEntity. -/
theorem removeEntity_breaks_componentMapIdsActive :
    alGet (removeEntity sysA entA).entities entA.id = none ∧
      (alGet (removeEntity sysA entA).entityComponentMap entA.id).isSome = true ∧
      ¬ componentMapIdsActive (removeEntity sysA entA) := by
  refine ⟨by decide, by decide, by decide⟩

/-- C2 (amended): the invariant is preserved by createEntity,
setComponent, removeComponent, flushChanges and getEntities, but not by
removeEntity (nor removeAllEntities), which deletes the id from the
active-entities table while leaving its component-map entry in the
active registry. -/
theorem componentMapIdsActive_preserved_without_removal :
    ∀ s : EntitySystem, componentMapIdsActive s →
      (∀ idArg, componentMapIdsActive (createEntity s idArg).2) ∧
      (∀ e n v, componentMapIdsActive (setComponent s e n v)) ∧
      (∀ e n, componentMapIdsActive (removeComponent s e n)) ∧
      componentMapIdsActive (flushChanges s) ∧
      (∀ n, componentMapIdsActive (getEntities s n).2) := by
  intro s hInv
  refine ⟨?_, ?_, ?_, ?_, ?_⟩
  · intro idArg p hp
    simp only [createEntity] at hp ⊢
    rcases mem_alSet hp with h | h
    · subst h
      simp [alGet_alSet]
    · rw [alGet_alSet]
      by_cases hid : s.counter = p.1
      · simp [hid]
      · simp only [if_neg hid]
        exact hInv p h
  · intro e n v
    exact componentMapIdsActive_congr (setComponent_ecm_eq s e n v)
      (setComponent_entities_eq s e n v) hInv
  · intro e n
    exact componentMapIdsActive_congr (removeComponent_ecm_eq s e n)
      (removeComponent_entities_eq s e n) hInv
  · exact componentMapIdsActive_congr rfl rfl hInv
  · intro n
    exact componentMapIdsActive_congr (getEntities_ecm_eq s n)
      (getEntities_entities_eq s n) hInv

/-- Witness: the preservation theorem applied to the concrete reachable
state sysA and a setComponent step. -/
theorem componentMapIdsActive_preserved_witness :
    componentMapIdsActive (setComponent sysA entA "P" (.vobj 1)) :=
  ((componentMapIdsActive_preserved_without_removal sysA (by decide)).2.1) entA "P" (.vobj 1)

/-- The public operations of one registry instance, used to quantify
over call sequences. -/
inductive Op where
  | create : Option Nat → Op
  | setLazy : Bool → Op
  | setComp : Entity → String → Value → Op
  | removeComp : Entity → String → Op
  | removeEnt : Entity → Op
  | removeAll : Op
  | flushOp : Op
  | getEnts : String → Op

/-- State transition of one public operation (results of createEntity
and getEntities are discarded; setLazy is the public isLazySets
switch). -/
def applyOp (s : EntitySystem) : Op → EntitySystem
  | .create idArg => (createEntity s idArg).2
  | .setLazy b => { s with isLazySets := b }
  | .setComp e n v => setComponent s e n v
  | .removeComp e n => removeComponent s e n
  | .removeEnt e => removeEntity s e
  | .removeAll => removeAllEntities s
  | .flushOp => flushChanges s
  | .getEnts n => (getEntities s n).2

/-- Implicit invariant: every active entity id has an entry in the
active component registry. -/
def activeIdsHaveComponentMaps (s : EntitySystem) : Prop :=
  ∀ p ∈ s.entities, (alGet s.entityComponentMap p.1).isSome = true

instance (s : EntitySystem) : Decidable (activeIdsHaveComponentMaps s) :=
  inferInstanceAs (Decidable (∀ p ∈ s.entities, (alGet s.entityComponentMap p.1).isSome = true))

theorem activeIdsHaveComponentMaps_congr {s s' : EntitySystem}
    (h1 : s'.entities = s.entities) (h2 : s'.entityComponentMap = s.entityComponentMap)
    (h : activeIdsHaveComponentMaps s) : activeIdsHaveComponentMaps s' := by
  intro p hp
  rw [h1] at hp
  rw [h2]
  exact h p hp

theorem inv9_createEntity (s : EntitySystem) (idArg : Option Nat)
    (h : activeIdsHaveComponentMaps s) :
    activeIdsHaveComponentMaps (createEntity s idArg).2 := by
  intro p hp
  simp only [createEntity] at hp ⊢
  rcases mem_alSet hp with h1 | h1
  · subst h1
    simp [alGet_alSet]
  · rw [alGet_alSet]
    by_cases hid : s.counter = p.1
    · simp [hid]
    · simp only [if_neg hid]
      exact h p h1

theorem removeEntity_entities_sub {s : EntitySystem} {e : Entity} {p : Nat × Entity}
    (hp : p ∈ (removeEntity s e).entities) : p ∈ s.entities := by
  unfold removeEntity at hp
  split at hp
  · exact hp
  · exact (List.mem_filter.1 hp).1

theorem inv9_removeEntity (s : EntitySystem) (e : Entity)
    (h : activeIdsHaveComponentMaps s) :
    activeIdsHaveComponentMaps (removeEntity s e) := by
  intro p hp
  rw [removeEntity_ecm_eq]
  exact h p (removeEntity_entities_sub hp)

theorem inv9_fold (l : List Entity) (s : EntitySystem)
    (h : activeIdsHaveComponentMaps s) :
    activeIdsHaveComponentMaps (l.foldl (fun acc ent => removeEntity acc ent) s) := by
  induction l generalizing s with
  | nil => exact h
  | cons x rest ih => exact ih _ (inv9_removeEntity _ _ h)

/-- C9: the constructor state satisfies the invariant that every active
id has an active component-map entry, and every public operation
preserves it: createEntity installs the entry together with the entity
and no operation deletes an entry while its entity stays active. -/
theorem activeIdsHaveComponentMaps_invariant :
    activeIdsHaveComponentMaps EntitySystem.init ∧
      ∀ (s : EntitySystem) (op : Op),
        activeIdsHaveComponentMaps s → activeIdsHaveComponentMaps (applyOp s op) := by
  constructor
  · intro p hp
    simp [EntitySystem.init] at hp
  · intro s op h
    cases op with
    | create idArg => exact inv9_createEntity s idArg h
    | setLazy b => exact activeIdsHaveComponentMaps_congr rfl rfl h
    | setComp e n v =>
        exact activeIdsHaveComponentMaps_congr (setComponent_entities_eq s e n v)
          (setComponent_ecm_eq s e n v) h
    | removeComp e n =>
        exact activeIdsHaveComponentMaps_congr (removeComponent_entities_eq s e n)
          (removeComponent_ecm_eq s e n) h
    | removeEnt e => exact inv9_removeEntity s e h
    | removeAll => exact inv9_fold _ s h
    | flushOp => exact activeIdsHaveComponentMaps_congr rfl rfl h
    | getEnts n =>
        exact activeIdsHaveComponentMaps_congr (getEntities_entities_eq s n)
          (getEntities_ecm_eq s n) h

/-- Witness: the invariant theorem applied to the constructor state and
a createEntity step. -/
theorem activeIdsHaveComponentMaps_witness :
    activeIdsHaveComponentMaps (applyOp EntitySystem.init (Op.create none)) :=
  activeIdsHaveComponentMaps_invariant.2 EntitySystem.init (Op.create none) (by decide)

theorem setComponent_counter_eq (s : EntitySystem) (e : Entity) (n : String) (v : Value) :
    (setComponent s e n v).counter = s.counter := by
  unfold setComponent
  (repeat' split) <;> rfl

theorem removeComponent_counter_eq (s : EntitySystem) (e : Entity) (n : String) :
    (removeComponent s e n).counter = s.counter := by
  unfold removeComponent
  (repeat' split) <;> dsimp only <;> (repeat' split) <;> rfl

theorem removeEntity_counter_eq (s : EntitySystem) (e : Entity) :
    (removeEntity s e).counter = s.counter := by
  unfold removeEntity
  (repeat' split) <;> rfl

theorem getEntities_counter_eq (s : EntitySystem) (n : String) :
    (getEntities s n).2.counter = s.counter := by
  unfold getEntities
  (repeat' split) <;> rfl

theorem fold_removeEntity_counter_eq (l : List Entity) (s : EntitySystem) :
    (l.foldl (fun acc ent => removeEntity acc ent) s).counter = s.counter := by
  induction l generalizing s with
  | nil => rfl
  | cons x rest ih => rw [List.foldl_cons, ih, removeEntity_counter_eq]

theorem applyOp_counter_le (s : EntitySystem) (op : Op) :
    s.counter ≤ (applyOp s op).counter := by
  cases op with
  | create idArg => simp [applyOp, createEntity]
  | setLazy b => exact le_of_eq rfl
  | setComp e n v => exact le_of_eq (setComponent_counter_eq s e n v).symm
  | removeComp e n => exact le_of_eq (removeComponent_counter_eq s e n).symm
  | removeEnt e => exact le_of_eq (removeEntity_counter_eq s e).symm
  | removeAll => exact le_of_eq (fold_removeEntity_counter_eq _ s).symm
  | flushOp => exact le_of_eq rfl
  | getEnts n => exact le_of_eq (getEntities_counter_eq s n).symm

/-- The ids handed out by the createEntity calls of an operation
sequence, in call order. -/
def assignedIds (s : EntitySystem) : List Op → List Nat
  | [] => []
  | .create idArg :: rest =>
      (createEntity s idArg).1.id :: assignedIds (createEntity s idArg).2 rest
  | .setLazy b :: rest => assignedIds (applyOp s (.setLazy b)) rest
  | .setComp e n v :: rest => assignedIds (applyOp s (.setComp e n v)) rest
  | .removeComp e n :: rest => assignedIds (applyOp s (.removeComp e n)) rest
  | .removeEnt e :: rest => assignedIds (applyOp s (.removeEnt e)) rest
  | .removeAll :: rest => assignedIds (applyOp s .removeAll) rest
  | .flushOp :: rest => assignedIds (applyOp s .flushOp) rest
  | .getEnts n :: rest => assignedIds (applyOp s (.getEnts n)) rest

theorem mem_assignedIds_le (ops : List Op) :
    ∀ (s : EntitySystem) (x : Nat), x ∈ assignedIds s ops → s.counter ≤ x := by
  induction ops with
  | nil =>
      intro s x hx
      simp [assignedIds] at hx
  | cons op rest ih =>
      intro s x hx
      cases op with
      | create idArg =>
          simp only [assignedIds] at hx
          rcases List.mem_cons.1 hx with h | h
          · subst h
            simp [createEntity]
          · have hle := ih _ _ h
            simp only [createEntity] at hle
            omega
      | setLazy b => exact le_trans (applyOp_counter_le s _) (ih _ _ hx)
      | setComp e n v => exact le_trans (applyOp_counter_le s _) (ih _ _ hx)
      | removeComp e n => exact le_trans (applyOp_counter_le s _) (ih _ _ hx)
      | removeEnt e => exact le_trans (applyOp_counter_le s _) (ih _ _ hx)
      | removeAll => exact le_trans (applyOp_counter_le s _) (ih _ _ hx)
      | flushOp => exact le_trans (applyOp_counter_le s _) (ih _ _ hx)
      | getEnts n => exact le_trans (applyOp_counter_le s _) (ih _ _ hx)

theorem assignedIds_chain (ops : List Op) :
    ∀ s : EntitySystem, List.Chain' (· < ·) (assignedIds s ops) := by
  induction ops with
  | nil =>
      intro s
      simp [assignedIds]
  | cons op rest ih =>
      intro s
      cases op with
      | create idArg =>
          simp only [assignedIds]
          rw [List.chain'_cons']
          refine ⟨?_, ih _⟩
          intro y hy
          have hmem := List.mem_of_mem_head? hy
          have hle := mem_assignedIds_le rest _ _ hmem
          simp only [createEntity] at hle ⊢
          omega
      | setLazy b => exact ih _
      | setComp e n v => exact ih _
      | removeComp e n => exact ih _
      | removeEnt e => exact ih _
      | removeAll => exact ih _
      | flushOp => exact ih _
      | getEnts n => exact ih _

/-- C6: over any operation sequence on one registry instance the ids
assigned by createEntity are strictly increasing in call order, hence
pairwise distinct and never reused, and the documented optional id
parameter of createEntity has no effect on the result. -/
theorem createEntity_ids_strictly_increasing :
    ∀ (s : EntitySystem) (ops : List Op),
      List.Chain' (· < ·) (assignedIds s ops) ∧
      List.Pairwise (· ≠ ·) (assignedIds s ops) ∧
      ∀ idArg idArg2 : Option Nat, createEntity s idArg = createEntity s idArg2 := by
  intro s ops
  refine ⟨assignedIds_chain ops s, ?_, fun idArg idArg2 => rfl⟩
  have hp : List.Pairwise (· < ·) (assignedIds s ops) :=
    List.chain'_iff_pairwise.1 (assignedIds_chain ops s)
  exact hp.imp (fun hlt => Nat.ne_of_lt hlt)

/-- sysA after attaching P eagerly and then removing the entity: a
reachable state whose removed id still has an active component-map
entry aliasing the staged removed map. -/
def sysRemoved : EntitySystem := removeEntity (setComponent sysA entA "P" (.vobj 7)) entA

/-- C8: the claim states removeComponent is a silent no-op on an
already-removed entity.  False: after removeEntity the lingering active
component-map entry lets removeComponent proceed, and because it
aliases the staged removed map the staged value is destroyed as well —
the observable getComponent result changes. -/
theorem removeComponent_mutates_removed_entity :
    alGet sysRemoved.entities entA.id = none ∧
      getComponent sysRemoved entA "P" = Value.vobj 7 ∧
      removeComponent sysRemoved entA "P" ≠ sysRemoved ∧
      getComponent (removeComponent sysRemoved entA "P") entA "P" = Value.vnull := by
  refine ⟨by decide, by decide, by decide, by decide⟩

/-- C8 (amended): for an id absent from the active-entities table,
setComponent and removeEntity are silent no-ops that return the state
unchanged; removeComponent is a no-op exactly when the id also has no
active component-map entry, which fails for an entity removed via
removeEntity because its entry lingers. -/
theorem inactive_entity_ops_noop :
    ∀ (s : EntitySystem) (e : Entity) (n : String) (v : Value),
      alGet s.entities e.id = none →
      setComponent s e n v = s ∧
      removeEntity s e = s ∧
      (alGet s.entityComponentMap e.id = none → removeComponent s e n = s) := by
  intro s e n v h
  refine ⟨?_, ?_, ?_⟩
  · unfold setComponent
    rw [h]
  · unfold removeEntity
    rw [h]
  · intro h2
    unfold removeComponent
    rw [h2]

/-- Witness: the no-op theorem applied to the constructor state, where
no entity is active. -/
theorem inactive_entity_ops_noop_witness :
    setComponent EntitySystem.init entA "P" (.vobj 1) = EntitySystem.init ∧
      removeEntity EntitySystem.init entA = EntitySystem.init := by
  have h := inactive_entity_ops_noop EntitySystem.init entA "P" (.vobj 1) (by decide)
  exact ⟨h.1, h.2.1⟩

/-- A stale handle sharing the id of the stored carrier entA but
distinct from it as an object. -/
def staleH : Entity := ⟨0, 99⟩

/-- sysA with component P attached eagerly, so an entity set for P
exists. -/
def sysP : EntitySystem := setComponent sysA entA "P" (.vobj 2)

/-- C10: removeEntity validates by id only: given a stale handle whose
id is stored but which fails the hasEntity reference check, the stored
entity is removed from the active table and every existing set receives
the remove notification carrying the stale handle itself. -/
theorem removeEntity_by_id :
    ∀ (s : EntitySystem) (h c : Entity),
      alGet s.entities h.id = some c →
      hasEntity s h = false →
      alGet (removeEntity s h).entities h.id = none ∧
      ∀ (n : String) (es : EntitySet), alGet s.entitySets n = some es →
        alGet (removeEntity s h).entitySets n = some (es.remove h) ∧
        (es.remove h).removedEntities = es.removedEntities ++ [h] := by
  intro s h c hc hh
  unfold removeEntity
  rw [hc]
  dsimp only
  refine ⟨?_, ?_⟩
  · rw [alGet_alErase]
    simp
  · intro n es hes
    refine ⟨?_, rfl⟩
    rw [alGet_mapValues s.entitySets n (fun es0 => es0.remove h), hes]
    rfl

/-- Witness: removing via the stale handle staleH from sysP removes the
stored carrier entA and stages staleH in the set's removed bucket. -/
theorem removeEntity_by_id_witness :
    alGet (removeEntity sysP staleH).entities staleH.id = none ∧
      alGet (removeEntity sysP staleH).entitySets "P" =
        some ((EntitySet.empty.add entA).remove staleH) := by
  have h := removeEntity_by_id sysP staleH entA (by decide) (by decide)
  exact ⟨h.1, (h.2 "P" (EntitySet.empty.add entA) (by decide)).1⟩

/-- sysA with component P holding the falsy value 0. -/
def sysFalsyP : EntitySystem := setComponent sysA entA "P" (.vnum 0)

/-- C3: the claim states the add/change choice depends only on prior
presence of the name in the active map.  False: the source tests the
prior value's truthiness, so overwriting a present-but-falsy value
issues a second add — the changed bucket stays empty. -/
theorem setComponent_add_despite_presence :
    alGet sysFalsyP.entityComponentMap entA.id = some 1 ∧
      alGet (derefCM sysFalsyP 1) "P" = some (Value.vnum 0) ∧
      alGet (setComponent sysFalsyP entA "P" (.vnum 1)).entitySets "P" =
        some ⟨[entA, entA], [entA, entA], [], []⟩ := by
  refine ⟨by decide, by decide, by decide⟩

/-- C3 (amended): for an active entity with a component map, a
setComponent call on a name with an existing set — or one created
eagerly — issues exactly one notification: change when the prior value
stored under the name is truthy, add otherwise (so presence with a
falsy value counts as absence, consistent with hasComponent); the
choice never inspects the new value. -/
theorem setComponent_notification_by_truthiness :
    ∀ (s : EntitySystem) (e : Entity) (n : String) (v : Value) (ent : Entity) (a : Nat),
      alGet s.entities e.id = some ent →
      alGet s.entityComponentMap e.id = some a →
      (∀ es : EntitySet, alGet s.entitySets n = some es →
        alGet (setComponent s e n v).entitySets n =
          some (if (vget (derefCM s a) n).truthy then es.change e else es.add e)) ∧
      (alGet s.entitySets n = none → s.isLazySets = false →
        alGet (setComponent s e n v).entitySets n =
          some (if (vget (derefCM s a) n).truthy
                then EntitySet.empty.change e else EntitySet.empty.add e)) := by
  intro s e n v ent a he hm
  constructor
  · intro es hes
    unfold setComponent
    rw [he, hm]
    try dsimp only
    rw [hes]
    simp [alGet_alSet]
  · intro hes hl
    unfold setComponent
    rw [he, hm]
    try dsimp only
    rw [hes]
    try dsimp only
    rw [hl]
    simp [alGet_alSet]

/-- Witness: overwriting the truthy value of P in sysP yields a change
notification on the existing set. -/
theorem setComponent_notification_witness :
    alGet (setComponent sysP entA "P" (.vobj 3)).entitySets "P" =
      some ((EntitySet.empty.add entA).change entA) := by
  have h := (setComponent_notification_by_truthiness sysP entA "P" (.vobj 3) entA 1
    (by decide) (by decide)).1 (EntitySet.empty.add entA) (by decide)
  have h2 : (vget (derefCM sysP 1) "P").truthy = true := by decide
  rw [h2] at h
  simpa using h

/-- The state with active P falsy (0) and a staged removed P truthy
(5): built by set 5, remove, set 0. -/
def sysShadow : EntitySystem :=
  setComponent (removeComponent (setComponent sysA entA "P" (.vnum 5)) entA "P") entA "P" (.vnum 0)

/-- C4: the claim states getComponent returns the active value whenever
the active map contains the name.  False: the source requires the
stored value to be truthy, so a present falsy active value is shadowed
by a truthy staged removed value. -/
theorem getComponent_ignores_falsy_active :
    alGet sysShadow.entityComponentMap entA.id = some 1 ∧
      alGet (derefCM sysShadow 1) "P" = some (Value.vnum 0) ∧
      getComponent sysShadow entA "P" = Value.vnum 5 ∧
      Value.vnum 5 ≠ Value.vnum 0 := by
  refine ⟨by decide, by decide, by decide, by decide⟩

/-- C4 (amended): getComponent returns the active value when the active
map stores a truthy value under the name; otherwise the staged removed
value when that one is truthy; otherwise null — presence with a falsy
value counts as absence on both lookups, and a falsy stored value is
never returned. -/
theorem getComponent_dual_lookup :
    ∀ (s : EntitySystem) (e : Entity) (n : String),
      (∀ a, alGet s.entityComponentMap e.id = some a →
        (vget (derefCM s a) n).truthy = true →
        getComponent s e n = vget (derefCM s a) n) ∧
      ((∀ a, alGet s.entityComponentMap e.id = some a →
          (vget (derefCM s a) n).truthy = false) →
        ∀ ra, alGet s.removedEntityComponentMap e.id = some ra →
          (vget (derefCM s ra) n).truthy = true →
          getComponent s e n = vget (derefCM s ra) n) ∧
      ((∀ a, alGet s.entityComponentMap e.id = some a →
          (vget (derefCM s a) n).truthy = false) →
       (∀ ra, alGet s.removedEntityComponentMap e.id = some ra →
          (vget (derefCM s ra) n).truthy = false) →
        getComponent s e n = Value.vnull) := by
  intro s e n
  refine ⟨?_, ?_, ?_⟩
  · intro a ha ht
    unfold getComponent
    rw [ha]
    try dsimp only
    rw [ht]
    try dsimp only
    rfl
  · intro hfalsy ra hra ht
    unfold getComponent
    cases hm : alGet s.entityComponentMap e.id with
    | none =>
        try dsimp only
        rw [hra]
        try dsimp only
        rw [ht]
        rfl
    | some a =>
        have hf := hfalsy a hm
        try dsimp only
        rw [hf]
        try dsimp only
        rw [hra]
        try dsimp only
        rw [ht]
        rfl
  · intro hfalsy hrfalsy
    unfold getComponent
    cases hm : alGet s.entityComponentMap e.id with
    | none =>
        try dsimp only
        cases hr : alGet s.removedEntityComponentMap e.id with
        | none => rfl
        | some ra =>
            try dsimp only
            rw [hrfalsy ra hr]
            rfl
    | some a =>
        have hf := hfalsy a hm
        try dsimp only
        rw [hf]
        try dsimp only
        cases hr : alGet s.removedEntityComponentMap e.id with
        | none => rfl
        | some ra =>
            try dsimp only
            rw [hrfalsy ra hr]
            rfl

/-- Witness: the first rule applied to the truthy active value of P in
sysP. -/
theorem getComponent_dual_lookup_witness :
    getComponent sysP entA "P" = Value.vobj 2 := by
  have h := (getComponent_dual_lookup sysP entA "P").1 1 (by decide) (by decide)
  rw [h]
  decide

theorem removeComponent_active_cell (s : EntitySystem) (e : Entity) (n : String) (a : Nat)
    (hm : alGet s.entityComponentMap e.id = some a) :
    vget (derefCM (removeComponent s e n) a) n = Value.vundef := by
  unfold removeComponent
  rw [hm]
  try dsimp only
  cases hr : alGet s.removedEntityComponentMap e.id with
  | none =>
      try dsimp only
      split <;> simp [derefCM, alGet_alSet, vget_alErase]
  | some ra =>
      try dsimp only
      split <;> simp [derefCM, alGet_alSet, vget_alErase]

theorem removeComponent_removed_map_some (s : EntitySystem) (e : Entity) (n : String)
    (a ra : Nat) (hm : alGet s.entityComponentMap e.id = some a)
    (hr : alGet s.removedEntityComponentMap e.id = some ra) :
    (removeComponent s e n).removedEntityComponentMap = s.removedEntityComponentMap := by
  unfold removeComponent
  rw [hm]
  try dsimp only
  rw [hr]
  try dsimp only
  split <;> rfl

theorem removeComponent_removed_cell_some (s : EntitySystem) (e : Entity) (n : String)
    (a ra : Nat) (hm : alGet s.entityComponentMap e.id = some a)
    (hr : alGet s.removedEntityComponentMap e.id = some ra) (hra : ra ≠ a) :
    derefCM (removeComponent s e n) ra = alSet (derefCM s ra) n (vget (derefCM s a) n) := by
  unfold removeComponent
  rw [hm]
  try dsimp only
  rw [hr]
  try dsimp only
  split <;> simp [derefCM, alGet_alSet, Ne.symm hra]

theorem removeComponent_removed_map_none (s : EntitySystem) (e : Entity) (n : String)
    (a : Nat) (hm : alGet s.entityComponentMap e.id = some a)
    (hr : alGet s.removedEntityComponentMap e.id = none) :
    (removeComponent s e n).removedEntityComponentMap =
      alSet s.removedEntityComponentMap e.id s.nextAddr := by
  unfold removeComponent
  rw [hm]
  try dsimp only
  rw [hr]
  try dsimp only
  split <;> rfl

theorem removeComponent_removed_cell_none (s : EntitySystem) (e : Entity) (n : String)
    (a : Nat) (hm : alGet s.entityComponentMap e.id = some a)
    (hr : alGet s.removedEntityComponentMap e.id = none) (hnext : s.nextAddr ≠ a) :
    derefCM (removeComponent s e n) s.nextAddr = [(n, vget (derefCM s a) n)] := by
  unfold removeComponent
  rw [hm]
  try dsimp only
  rw [hr]
  try dsimp only
  split <;> simp [derefCM, alGet_alSet, alSet, Ne.symm hnext]

theorem removeComponent_entitySets_match (s : EntitySystem) (e : Entity) (n : String)
    (a : Nat) (hm : alGet s.entityComponentMap e.id = some a) :
    (removeComponent s e n).entitySets =
      match alGet s.entitySets n with
      | some es => alSet s.entitySets n (es.remove e)
      | none => s.entitySets := by
  unfold removeComponent
  rw [hm]
  try dsimp only
  cases hr : alGet s.removedEntityComponentMap e.id with
  | none =>
      try dsimp only
      cases hsets : alGet s.entitySets n <;> simp [hsets]
  | some ra =>
      try dsimp only
      cases hsets : alGet s.entitySets n <;> simp [hsets]

theorem vget_singleton (k : String) (w : Value) : vget [(k, w)] k = w := by
  simp [vget, alGet]

theorem contains_remove_self (es : EntitySet) (e : Entity) :
    (es.remove e).contains e = false := by
  simp [EntitySet.contains, EntitySet.remove, List.mem_filter]

/-- sysFalsyP holds P with the falsy value 0; removing it leaves the
staged copy unreadable, so the pre-removal value is not returned. -/
theorem removeComponent_loses_falsy_value :
    alGet sysFalsyP.entityComponentMap entA.id = some 1 ∧
      alGet (derefCM sysFalsyP 1) "P" = some (Value.vnum 0) ∧
      getComponent (removeComponent sysFalsyP entA "P") entA "P" = Value.vnull ∧
      Value.vnull ≠ Value.vnum 0 := by
  refine ⟨by decide, by decide, by decide, by decide⟩

/-- C5 (amended): for an entity whose active component map stores a
truthy value v under n — and whose staged removed-component entry, if
any, is a distinct object from the active map, as holds for every
active entity — removeComponent makes hasComponent false, notifies the
set for n (when one exists) with remove so the membership view drops e,
keeps v readable through getComponent, and leaves other staged names
for the same id undisturbed.  The freshness side condition on nextAddr
expresses that the fresh staged map is a new object. -/
theorem removeComponent_staging :
    ∀ (s : EntitySystem) (e : Entity) (n : String) (a : Nat) (v : Value),
      alGet s.entityComponentMap e.id = some a →
      vget (derefCM s a) n = v →
      v.truthy = true →
      (∀ ra, alGet s.removedEntityComponentMap e.id = some ra → ra ≠ a) →
      s.nextAddr ≠ a →
      hasComponent (removeComponent s e n) e n = false ∧
      getComponent (removeComponent s e n) e n = v ∧
      (∀ es : EntitySet, alGet s.entitySets n = some es →
        alGet (removeComponent s e n).entitySets n = some (es.remove e) ∧
        (es.remove e).contains e = false) ∧
      (∀ ra, alGet s.removedEntityComponentMap e.id = some ra →
        ∀ m : String, m ≠ n →
          vget (derefCM (removeComponent s e n) ra) m = vget (derefCM s ra) m) := by
  intro s e n a v hm hv ht hnoalias hnext
  have hecm := removeComponent_ecm_eq s e n
  have hcell := removeComponent_active_cell s e n a hm
  refine ⟨?_, ?_, ?_, ?_⟩
  · unfold hasComponent
    rw [hecm, hm]
    try dsimp only
    rw [hcell]
    rfl
  · unfold getComponent
    rw [hecm, hm]
    try dsimp only
    rw [hcell]
    cases hr : alGet s.removedEntityComponentMap e.id with
    | none =>
        have h1 : alGet (removeComponent s e n).removedEntityComponentMap e.id =
            some s.nextAddr := by
          rw [removeComponent_removed_map_none s e n a hm hr, alGet_alSet]
          simp
        have h3 : vget (derefCM (removeComponent s e n) s.nextAddr) n = v := by
          rw [removeComponent_removed_cell_none s e n a hm hr hnext, vget_singleton, hv]
        simp [show Value.vundef.truthy = false from rfl, h1, h3, ht]
    | some ra =>
        have hra := hnoalias ra hr
        have h1 : alGet (removeComponent s e n).removedEntityComponentMap e.id = some ra := by
          rw [removeComponent_removed_map_some s e n a ra hm hr]
          exact hr
        have h3 : vget (derefCM (removeComponent s e n) ra) n = v := by
          rw [removeComponent_removed_cell_some s e n a ra hm hr hra, vget_alSet]
          simp [hv]
        simp [show Value.vundef.truthy = false from rfl, h1, h3, ht]
  · intro es hes
    refine ⟨?_, contains_remove_self es e⟩
    rw [removeComponent_entitySets_match s e n a hm]
    rw [hes]
    try dsimp only
    rw [alGet_alSet]
    simp
  · intro ra hr m hmn
    have hra := hnoalias ra hr
    rw [removeComponent_removed_cell_some s e n a ra hm hr hra, vget_alSet]
    simp [Ne.symm hmn]

/-- Witness: removing the truthy P from sysP keeps the value readable
and drops entA from the set. -/
theorem removeComponent_staging_witness :
    hasComponent (removeComponent sysP entA "P") entA "P" = false ∧
      getComponent (removeComponent sysP entA "P") entA "P" = Value.vobj 2 ∧
      alGet (removeComponent sysP entA "P").entitySets "P" =
        some ((EntitySet.empty.add entA).remove entA) := by
  have hnone : alGet sysP.removedEntityComponentMap entA.id = none := by decide
  have h := removeComponent_staging sysP entA "P" 1 (Value.vobj 2) (by decide) (by decide)
    (by decide) (fun ra hra => by simp [hnone] at hra) (by decide)
  exact ⟨h.1, h.2.1, (h.2.2.1 (EntitySet.empty.add entA) (by decide)).1⟩

theorem backfill_mem (f : Entity → Bool) :
    ∀ (l : List Entity) (acc : EntitySet) (e : Entity),
      (e ∈ acc.entities ∨ (e ∈ l ∧ f e = true)) →
      e ∈ (l.foldl (fun es ent => if f ent then es.add ent else es) acc).entities := by
  intro l
  induction l with
  | nil =>
      intro acc e h
      rcases h with h | h
      · exact h
      · exact absurd h.1 (List.not_mem_nil e)
  | cons x rest ih =>
      intro acc e h
      rw [List.foldl_cons]
      rcases h with h | ⟨hmem, hf⟩
      · refine ih _ _ (Or.inl ?_)
        split
        · exact List.mem_append_left _ h
        · exact h
      · rcases List.mem_cons.1 hmem with rfl | hrest
        · refine ih _ _ (Or.inl ?_)
          rw [if_pos hf]
          exact List.mem_append_right _ (List.mem_singleton.2 rfl)
        · exact ih _ _ (Or.inr ⟨hrest, hf⟩)

/-- The state of sysL after a lazy setComponent of the falsy value 0
under V: the claim says hasComponent is true and the back-filled set
contains the entity; both fail for a falsy committed value. -/
theorem lazy_falsy_component_invisible :
    alGet (setComponent sysL entA "V" (.vnum 0)).entitySets "V" = none ∧
      hasComponent (setComponent sysL entA "V" (.vnum 0)) entA "V" = false ∧
      (getEntities (setComponent sysL entA "V" (.vnum 0)) "V").1.contains entA = false := by
  refine ⟨by decide, by decide, by decide⟩

/-- C7 (amended): in lazy mode, with no set yet for n, setComponent
commits a truthy v into the active component map without creating a
set, so hasComponent is true while no set exists, and the first
getEntities call back-fills the new set from the active entities so it
contains the stored carrier.  For a falsy v the commit still happens
but hasComponent reads false and the back-fill skips the entity. -/
theorem lazy_setComponent_backfill :
    ∀ (s : EntitySystem) (e : Entity) (n : String) (v : Value) (a : Nat),
      s.isLazySets = true →
      alGet s.entities e.id = some e →
      alGet s.entityComponentMap e.id = some a →
      alGet s.entitySets n = none →
      v.truthy = true →
      alGet (setComponent s e n v).entitySets n = none ∧
      hasComponent (setComponent s e n v) e n = true ∧
      (getEntities (setComponent s e n v) n).1.contains e = true := by
  intro s e n v a hlazy he hm hsets ht
  have hstate : setComponent s e n v =
      { s with cmHeap := alSet s.cmHeap a (alSet (derefCM s a) n v) } := by
    unfold setComponent
    rw [he, hm]
    try dsimp only
    rw [hsets]
    try dsimp only
    rw [hlazy]
    simp
  have hhas : hasComponent (setComponent s e n v) e n = true := by
    rw [hstate]
    unfold hasComponent
    try dsimp only
    rw [hm]
    try dsimp only
    simp [derefCM, alGet_alSet, vget_alSet, ht]
  refine ⟨?_, hhas, ?_⟩
  · rw [hstate]
    exact hsets
  · have hsets2 : alGet (setComponent s e n v).entitySets n = none := by
      rw [hstate]
      exact hsets
    unfold getEntities
    rw [hsets2]
    try dsimp only
    have hmem : e ∈ (setComponent s e n v).entities.map Prod.snd := by
      rw [hstate]
      exact List.mem_map_of_mem Prod.snd (alGet_mem he)
    have hflt : hasComponent (setComponent s e n v) e n = true := hhas
    have hin := backfill_mem (fun ent => hasComponent (setComponent s e n v) ent n)
      ((setComponent s e n v).entities.map Prod.snd) EntitySet.empty e
      (Or.inr ⟨hmem, hflt⟩)
    simpa [EntitySet.contains] using hin

/-- Witness: the lazy scenario with a truthy component value on the
concrete lazy system. -/
theorem lazy_setComponent_backfill_witness :
    alGet (setComponent sysL entA "V" (.vobj 4)).entitySets "V" = none ∧
      hasComponent (setComponent sysL entA "V" (.vobj 4)) entA "V" = true ∧
      (getEntities (setComponent sysL entA "V" (.vobj 4)) "V").1.contains entA = true :=
  lazy_setComponent_backfill sysL entA "V" (.vobj 4) 1 (by decide) (by decide) (by decide)
    (by decide) (by decide)

end Jsfw
